import Mathlib

/-!
Verification of the research-job engine: the content store
(`database_manager.py`), the staged research pipeline (`research_agent.py`),
the single-flight job scheduler (`jobs/job_manager.py`) and the knowledge
accumulator of the portable agent (`portable-research-agent.py`) are given a
shallow embedding, and the behavioural claims of the specification are proved
or refuted against it.
-/

namespace Research

/-- Text primitives used by `DatabaseManager.add_source`.  `sha256` models
`hashlib.sha256(content.encode()).hexdigest()` and `similarity` models
`difflib.SequenceMatcher(a=content, b=existing).ratio()`, a total function
into the rationals.  Both are library collaborators of the store, abstracted
at their call boundary; the dedup logic under verification is independent of
their internals. -/
structure TextOps where
  sha256 : String → String
  similarity : String → String → ℚ

/-- One row of the `sources` table (columns relevant to dedup; timestamp and
credibility columns are omitted as no claim mentions them). -/
structure SourceRow where
  id : Nat
  url : String
  content : String
  contentHash : String
deriving DecidableEq

/-- One row of the `research_sessions` table. -/
structure SessionRow where
  id : Nat
  topic : String
  focus : String
  status : String
deriving DecidableEq

/-- One row of the `findings` table. -/
structure FindingRow where
  id : Nat
  sessionId : Nat
  content : String
  confidence : ℚ
  sourceId : Option Nat
deriving DecidableEq

/-- The SQLite database owned by `DatabaseManager`, as the three tables the
pipeline writes.  Rows are kept in insertion order, matching the scan order
of an un-indexed SQLite table, and a fresh `INTEGER PRIMARY KEY` equals
`max rowid + 1`, which for these append-only tables is `length + 1`. -/
structure DB where
  sessions : List SessionRow
  sources : List SourceRow
  findings : List FindingRow
deriving DecidableEq

def DB.empty : DB := ⟨[], [], []⟩

/-- Model of `DatabaseManager.add_source(url, content, metadata)`: computes the content
hash; returns the id of an exact-hash match if one exists; otherwise scans all
sources in insertion order and returns the id of the first whose similarity
ratio with the new content is at least 0.85; otherwise inserts a new row and
returns its fresh id together with `inserted = true`. -/
def addSource (T : TextOps) (db : DB) (url content : String) : (Nat × Bool) × DB :=
  let h := T.sha256 content
  match db.sources.find? (fun r => r.contentHash == h) with
  | some r => ((r.id, false), db)
  | none =>
    match db.sources.find? (fun r => decide ((85 : ℚ)/100 ≤ T.similarity content r.content)) with
    | some r => ((r.id, false), db)
    | none =>
      let nid := db.sources.length + 1
      ((nid, true), { db with sources := db.sources ++ [⟨nid, url, content, h⟩] })

/-- Model of `DatabaseManager.count_sources()`: `SELECT COUNT(*) FROM sources`. -/
def countSources (db : DB) : Nat := db.sources.length

/-- Model of `DatabaseManager.start_session`: inserts a `running` session row and
returns its fresh id. -/
def startSession (db : DB) (topic focus : String) : Nat × DB :=
  let sid := db.sessions.length + 1
  (sid, { db with sessions := db.sessions ++ [⟨sid, topic, focus, "running"⟩] })

/-- Model of `DatabaseManager.complete_session`: `UPDATE research_sessions SET
status=? WHERE id=?` (the completion timestamp is omitted). -/
def completeSession (db : DB) (sid : Nat) (status : String) : DB :=
  { db with sessions := db.sessions.map (fun s => if s.id == sid then { s with status := status } else s) }

/-- Model of `DatabaseManager.add_finding`: appends a finding row and returns its id. -/
def addFinding (db : DB) (sid : Nat) (content : String) (confidence : ℚ)
    (sourceId : Option Nat) : Nat × DB :=
  let fid := db.findings.length + 1
  (fid, { db with findings := db.findings ++ [⟨fid, sid, content, confidence, sourceId⟩] })

/-- Well-formedness of the append-only `sources` table: every stored id is at
most the row count, so `length + 1` is fresh.  This is the SQLite rowid
discipline for a table that is never deleted from. -/
def sourceIdsOk (db : DB) : Prop := ∀ r ∈ db.sources, r.id ≤ db.sources.length

/-- Contents of a file written by the pipeline: the Markdown report text, or
the citations list of `(url, archived_url)` pairs dumped as JSON. -/
inductive FileData
  | text (s : String)
  | citations (l : List (String × String))
deriving DecidableEq

/-- The ways `ResearchAgent.run_research` terminates abnormally: the distinct
`CancelledError` raised at a stage boundary, or any other exception
propagating from a collaborator or file write. -/
inductive RunErr
  | cancelled
  | failure (msg : String)
deriving DecidableEq

/-- The artifact descriptor returned by a successful `run_research`:
`{"session_id": ..., "report": ..., "citations": ...}`. -/
structure ArtifactsOut where
  sessionId : Nat
  report : String
  citations : String
deriving DecidableEq

/-- The external collaborators of one pipeline run, abstracted at their call
boundary (spec section 6): each call either returns a value or raises, which
the oracle records as `Except`.  `cancelAt i` is the value of
`cancel_event.is_set()` at the i-th stage-boundary check.  `snapshotUrl`
models `tools.archive.wayback.snapshot`, which catches every exception and
falls back to a placeholder URL, hence is total.  `writeOutcome path content`
is the outcome of the file write at `path` (an `OSError` may be raised). -/
structure PipeEnv where
  cancelAt : Nat → Bool
  deepScrape : String → Except String (List String)
  extractContent : String → Except String String
  synthesizeOut : List String → Except String String
  snapshotUrl : String → String
  writeOutcome : String → FileData → Except String Unit

/-- Model of `ProgressTracker.stages`, the fixed ordered stage list. -/
def stages : List String :=
  ["initializing", "generating_questions", "searching_sources", "analyzing_content",
   "checking_facts", "detecting_contradictions", "building_knowledge_graph",
   "generating_report"]

/-- The stage loop of `run_research`: at each index the cancellation event is
checked first; if set, the loop aborts (second component `true`), otherwise
the progress event `(stage, idx / total)` is emitted and the loop advances. -/
def stageLoopFrom (cancelAt : Nat → Bool) (total : Nat) : Nat → List String → List (String × ℚ) × Bool
  | _, [] => ([], false)
  | i, st :: rest =>
    if cancelAt i then ([], true)
    else
      let p := stageLoopFrom cancelAt total (i + 1) rest
      ((st, (i : ℚ) / (total : ℚ)) :: p.1, p.2)

/-- The source loop of `run_research`: for each url, extract its content (a
collaborator call that may raise, aborting the loop with the database writes
made so far), insert it as a source, record a finding with confidence 0.5
referencing the returned source id, and accumulate the findings list. -/
def scrapeLoop (T : TextOps) (env : PipeEnv) (sessionId : Nat) :
    DB → List String → Except (String × DB) (List (String × Nat) × DB)
  | db, [] => .ok ([], db)
  | db, url :: rest =>
    match env.extractContent url with
    | .error e => .error (e, db)
    | .ok content =>
      let r1 := addSource T db url content
      let db2 := (addFinding r1.2 sessionId content ((5 : ℚ)/10) (some r1.1.1)).2
      match scrapeLoop T env sessionId db2 rest with
      | .error p => .error p
      | .ok (fs, db3) => .ok ((content, r1.1.1) :: fs, db3)

/-- The value of `os.path.join("reports", "full_report.md")`. -/
def reportPath : String := "reports/full_report.md"

/-- The value of `os.path.join("reports", "citations.json")`. -/
def citationsPath : String := "reports/citations.json"

/-- Equality of call outcomes is decidable when both payloads have decidable
equality; used to evaluate concrete runs of the embedding. -/
instance {ε α : Type} [DecidableEq ε] [DecidableEq α] : DecidableEq (Except ε α) := fun x y =>
  match x, y with
  | .ok a, .ok b =>
    if h : a = b then .isTrue (by subst h; rfl) else .isFalse (fun hc => h (by injection hc))
  | .error a, .error b =>
    if h : a = b then .isTrue (by subst h; rfl) else .isFalse (fun hc => h (by injection hc))
  | .ok _, .error _ => .isFalse (fun hc => nomatch hc)
  | .error _, .ok _ => .isFalse (fun hc => nomatch hc)

/-- The observable outcome of one `run_research` call: the returned value or
raised exception, the final database, the files successfully written, and the
trace of progress events `(message, fraction)` it reported. -/
structure RunOut where
  result : Except RunErr ArtifactsOut
  db : DB
  files : List (String × FileData)
  events : List (String × ℚ)

/-- Model of `ResearchAgent.run_research(topic, hours, focus)`: opens a session, walks
the stage list checking the cancellation event at each boundary (cancellation
marks the session `cancelled` and raises `CancelledError`), scrapes the urls
returned by `deep_scrape(topic)`, records each as a deduplicated source plus
a finding, synthesizes the report from the finding contents, marks the
session `complete`, writes the report file and then the citations file (each
entry pairing a url with its archival snapshot), emits the final progress
event `("generating_report", 1.0)` and returns the artifact descriptor.  Any
collaborator exception propagates out unhandled, carrying along the database
state already written. -/
def runResearch (T : TextOps) (env : PipeEnv) (db0 : DB)
    (topic : String) (hours : ℚ) (focus : String) : RunOut :=
  let s0 := startSession db0 topic focus
  let sessionId := s0.1
  let db1 := s0.2
  let sl := stageLoopFrom env.cancelAt stages.length 0 stages
  let evs := sl.1
  if sl.2 then
    { result := .error .cancelled, db := completeSession db1 sessionId "cancelled",
      files := [], events := evs }
  else
    match env.deepScrape topic with
    | .error e => { result := .error (.failure e), db := db1, files := [], events := evs }
    | .ok urls =>
      match scrapeLoop T env sessionId db1 urls with
      | .error p => { result := .error (.failure p.1), db := p.2, files := [], events := evs }
      | .ok (findings, db2) =>
        match env.synthesizeOut (findings.map Prod.fst) with
        | .error e => { result := .error (.failure e), db := db2, files := [], events := evs }
        | .ok reportContent =>
          let db3 := completeSession db2 sessionId "complete"
          match env.writeOutcome reportPath (.text reportContent) with
          | .error e => { result := .error (.failure e), db := db3, files := [], events := evs }
          | .ok _ =>
            let cit : FileData := .citations (urls.map (fun u => (u, env.snapshotUrl u)))
            match env.writeOutcome citationsPath cit with
            | .error e =>
              { result := .error (.failure e), db := db3,
                files := [(reportPath, .text reportContent)], events := evs }
            | .ok _ =>
              { result := .ok ⟨sessionId, reportPath, citationsPath⟩, db := db3,
                files := [(reportPath, .text reportContent), (citationsPath, cit)],
                events := evs ++ [("generating_report", 1)] }

/-- The `artifacts` field of a job dict: initially the empty dict, after a
failure the dict `error: msg`, after success the artifact descriptor. -/
inductive ArtifactsD
  | empty
  | err (msg : String)
  | out (a : ArtifactsOut)
deriving DecidableEq

/-- The job dict allocated by `JobManager.start`: keys `id`, `state`,
`topic`, `started_at`, `progress`, `artifacts`. -/
structure Job where
  id : Nat
  state : String
  topic : String
  startedAt : Nat
  progress : ℚ
  artifacts : ArtifactsD
deriving DecidableEq

/-- The shared state of the `JobManager` singleton.  `jobs` is the heap of
job dicts ever allocated (a dict is identified by its allocation index, which
is also stored as its `id`); `current` is the index the `self.current`
reference points at; `workers` are the indices whose worker threads are still
executing; `clock` supplies `time.time()` readings. -/
structure Sched where
  jobs : List Job
  current : Option Nat
  runCount : Nat
  workers : List Nat
  clock : Nat
deriving DecidableEq

def Sched.init : Sched := ⟨[], none, 0, [], 0⟩

/-- Whether the job dict at heap index `i` currently has state `running`. -/
def isRunningAt (s : Sched) (i : Nat) : Bool :=
  match s.jobs[i]? with
  | some j => j.state == "running"
  | none => false

/-- The guard of `JobManager.start` and `JobManager.cancel`:
`self.current and self.current.get('state') == 'running'`. -/
def currentRunning (s : Sched) : Bool :=
  match s.current with
  | some i => isRunningAt s i
  | none => false

/-- The `id` field of the dict `self.current` points at (0 when there is
none; only read under the `currentRunning` guard, where the dict exists). -/
def currentId (s : Sched) : Nat :=
  match s.current with
  | some i =>
    match s.jobs[i]? with
    | some j => j.id
    | none => 0
  | none => 0

/-- Model of `JobManager.start(topic, hours, focus)`: under the lock, if the current
job is `running` its id is returned and nothing changes; otherwise a fresh
job dict is allocated with state `running`, progress 0 and empty artifacts,
`self.current` is repointed at it, `run_count` is incremented, a worker
thread for it is launched, and its id is returned.  The `hours`, `focus`,
`model` and `provider` arguments are handed to the worker and not stored in
the job dict. -/
def start (s : Sched) (topic : String) : Nat × Sched :=
  if currentRunning s then
    (currentId s, s)
  else
    let nid := s.jobs.length
    (nid, { jobs := s.jobs ++ [⟨nid, "running", topic, s.clock, 0, .empty⟩],
            current := some nid, runCount := s.runCount + 1,
            workers := s.workers ++ [nid], clock := s.clock })

/-- Model of `JobManager.cancel(job_id)`: best-effort, the thread is not stopped; if
the current job is `running` its dict is marked state `error` with artifacts
`error: cancelled` and `true` is returned, otherwise `false` is returned and
nothing changes.  The `job_id` argument is ignored by the code. -/
def cancel (s : Sched) : Bool × Sched :=
  match s.current with
  | some i =>
    match s.jobs[i]? with
    | some j =>
      if j.state == "running" then
        (true, { s with jobs := s.jobs.set i { j with state := "error", artifacts := .err "cancelled" } })
      else (false, s)
    | none => (false, s)
  | none => (false, s)

/-- The snapshot returned by `JobManager.status`: the idle sentinel
`state: idle`, or a point-in-time copy of a job dict. -/
inductive StatusView
  | idle
  | snap (j : Job)
deriving DecidableEq

/-- Model of `JobManager.status(job_id)`: under the lock, returns the idle sentinel
when `self.current` is unset, and otherwise `dict(self.current)` — a copy of
whatever job `self.current` points at.  The `job_id` argument is never
read. -/
def status (s : Sched) (jobId : Option Nat) : StatusView :=
  match s.current with
  | none => .idle
  | some i =>
    match s.jobs[i]? with
    | some j => .snap j
    | none => .idle

/-- The id of the job a status snapshot reports, if any. -/
def statusId : StatusView → Option Nat
  | .idle => none
  | .snap j => some j.id

/-- The value of `str(e)` for the exception a worker caught: `CancelledError()` prints as
the empty string, any other exception as its message. -/
def errMsg : RunErr → String
  | .cancelled => ""
  | .failure m => m

/-- The tail of `JobManager._run` once the pipeline call has produced its
outcome: on a value, the worker marks its job dict `complete` with progress
1.0 and the returned artifacts; on an exception (caught by the
`except Exception` boundary), it marks the dict `error` with the exception
text in artifacts.  In both cases the `finally` block then repoints
`self.current` at this worker's job dict.  The worker index is retired. -/
def finish (s : Sched) (i : Nat) (result : Except RunErr ArtifactsOut) : Sched :=
  if s.workers.contains i then
    match s.jobs[i]? with
    | some j =>
      let j2 := match result with
        | .ok a => { j with state := "complete", progress := 1, artifacts := .out a }
        | .error e => { j with state := "error", artifacts := .err (errMsg e) }
      { s with jobs := s.jobs.set i j2, current := some i, workers := s.workers.erase i }
    | none => s
  else s

/-- One serialized access to the shared `JobManager` state: a `start` call, a
`cancel` call, or a worker reaching its finalization with the outcome of its
pipeline.  `status` reads are pure and need no event.  All accesses hold the
same lock, so an execution of the system is a sequence of these events. -/
inductive Ev
  | start (topic : String)
  | cancel
  | finish (i : Nat) (result : Except RunErr ArtifactsOut)

/-- The state transition of one event; the clock ticks between events. -/
def step (s : Sched) : Ev → Sched
  | .start t => { (start s t).2 with clock := s.clock + 1 }
  | .cancel => { (cancel s).2 with clock := s.clock + 1 }
  | .finish i r => { (finish s i r) with clock := s.clock + 1 }

/-- The scheduler state after an event sequence from process start. -/
def exec (evs : List Ev) : Sched := evs.foldl step Sched.init

/-- One row of the `knowledge_claims` table of the portable agent (the
timestamp and source-list columns are omitted; `evidence_count` defaults to
1 on insert, per the schema). -/
structure KClaim where
  claim : String
  evidenceCount : Nat
  confidence : ℚ
deriving DecidableEq

/-- The claim upsert of `AutonomousResearchAgent.update_knowledge`:
`INSERT INTO knowledge_claims ... ON CONFLICT(claim) DO UPDATE SET
evidence_count = evidence_count + 1, confidence = (confidence + s) / 2`,
where `s` is the observed evidence strength.  A conflict occurs exactly when
a row with the same claim text exists (`claim` is UNIQUE). -/
def upsertClaim (tbl : List KClaim) (pattern : String) (strength : ℚ) : List KClaim :=
  if tbl.any (fun r => r.claim == pattern) then
    tbl.map (fun r =>
      if r.claim == pattern then
        { r with evidenceCount := r.evidenceCount + 1,
                 confidence := (r.confidence + strength) / 2 }
      else r)
  else tbl ++ [⟨pattern, 1, strength⟩]

/-- The `knowledge_claims` effect of one `update_knowledge(findings,
analysis)` call: one upsert per pattern in `analysis.key_patterns`, all with
the strength `analysis.evidence_strength` of this analysis. -/
def updateKnowledge (tbl : List KClaim) (keyPatterns : List String) (strength : ℚ) : List KClaim :=
  keyPatterns.foldl (fun t p => upsertClaim t p strength) tbl

/-- Performs `n` further observations of the same claim text, each carrying the same
evidence strength `s`. -/
def observeRepeat (tbl : List KClaim) (p : String) (s : ℚ) : Nat → List KClaim
  | 0 => tbl
  | n + 1 => upsertClaim (observeRepeat tbl p s n) p s

/-- The environment of the outer research loop of the portable agent:
`elapsedHours n` is the wall-clock time elapsed at the n-th
`should_continue` check, and `decision n` is the lowercased `decision` field
of the continuation answer the reasoning service returns at that check. -/
structure AgentEnv where
  elapsedHours : Nat → ℚ
  decision : Nat → String
  finalReport : String

/-- Model of `AutonomousResearchAgent.should_continue` at the n-th check: `False` as
soon as the elapsed time exceeds `max_hours`, otherwise `False` exactly when
the reasoning service answers `stop`. -/
def shouldContinue (maxHours : ℚ) (env : AgentEnv) (n : Nat) : Bool :=
  if maxHours < env.elapsedHours n then false
  else env.decision n != "stop"

/-- Model of `AutonomousResearchAgent.run`: the number of iterations the
`while await self.should_continue()` loop performs before its guard first
fails, and the final report generated after the loop.  The termination
evidence `h` is the existence of a failing check. -/
def agentRun (maxHours : ℚ) (env : AgentEnv)
    (h : ∃ n, shouldContinue maxHours env n = false) : Nat × String :=
  (Nat.find h, env.finalReport)

/-- A hash collaborator for concrete evaluations: the content itself as its
own fingerprint (collision-free, like the idealized sha256), with a
similarity oracle that never fires. -/
def Tid : TextOps := ⟨fun s => s, fun _ _ => 0⟩

lemma find?_eq_none_of_forall {α : Type} (p : α → Bool) (l : List α)
    (h : ∀ x ∈ l, p x = false) : l.find? p = none :=
  List.find?_eq_none.mpr (fun x hx => by simp [h x hx])

/-- The function `List.find?` returns the first match: the returned element sits at an
index all of whose predecessors fail the predicate. -/
lemma find?_some_first {α : Type} (p : α → Bool) :
    ∀ (l : List α) (a : α), l.find? p = some a →
      ∃ i, ∃ hi : i < l.length, l.get ⟨i, hi⟩ = a ∧ p a = true ∧
        ∀ j, ∀ hj : j < l.length, j < i → p (l.get ⟨j, hj⟩) = false := by
  intro l
  induction l with
  | nil => intro a h; simp at h
  | cons x xs ih =>
    intro a h
    by_cases hp : p x = true
    · rw [List.find?_cons_of_pos _ hp] at h
      obtain rfl : x = a := by injection h
      refine ⟨0, Nat.succ_pos _, rfl, hp, ?_⟩
      intro j hj hj0
      exact absurd hj0 (Nat.not_lt_zero j)
    · have hp' : ¬ p x := by simpa using hp
      rw [List.find?_cons_of_neg _ hp'] at h
      obtain ⟨i, hi, hget, hpa, hmin⟩ := ih a h
      refine ⟨i + 1, Nat.succ_lt_succ hi, hget, hpa, ?_⟩
      intro j hj hji
      cases j with
      | zero => simpa using hp
      | succ k =>
        have hk : k < xs.length := Nat.lt_of_succ_lt_succ hj
        exact hmin k hk (Nat.lt_of_succ_lt_succ hji)

/-- Claim C3: with no exact-hash match for the new content, `add_source`
returns the id of the first existing source (in insertion order) whose
similarity ratio with the new content is at least 0.85, with
`inserted = false` and the store unchanged; and when no existing source is
that similar, it inserts a new row and returns its fresh id with
`inserted = true`. -/
theorem C3_add_source_near_duplicate (T : TextOps) (db : DB) (url content : String)
    (hids : sourceIdsOk db)
    (hhash : ∀ r ∈ db.sources, r.contentHash ≠ T.sha256 content) :
    ((∃ r ∈ db.sources, (85 : ℚ)/100 ≤ T.similarity content r.content) →
      ∃ i, ∃ hi : i < db.sources.length,
        (85 : ℚ)/100 ≤ T.similarity content (db.sources.get ⟨i, hi⟩).content ∧
        (∀ j, ∀ hj : j < db.sources.length, j < i →
          T.similarity content (db.sources.get ⟨j, hj⟩).content < (85 : ℚ)/100) ∧
        addSource T db url content = (((db.sources.get ⟨i, hi⟩).id, false), db)) ∧
    ((∀ r ∈ db.sources, T.similarity content r.content < (85 : ℚ)/100) →
      addSource T db url content =
        ((db.sources.length + 1, true),
          { db with sources := db.sources ++ [⟨db.sources.length + 1, url, content, T.sha256 content⟩] }) ∧
      ∀ r ∈ db.sources, r.id ≠ db.sources.length + 1) := by
  have hno : db.sources.find? (fun r => r.contentHash == T.sha256 content) = none :=
    find?_eq_none_of_forall _ _ (fun r hr => by simpa using hhash r hr)
  constructor
  · rintro ⟨r, hr, hsimr⟩
    have hne : db.sources.find?
        (fun r => decide ((85 : ℚ)/100 ≤ T.similarity content r.content)) ≠ none := by
      intro hnone
      have := List.find?_eq_none.mp hnone r hr
      simp at this
      exact absurd hsimr (not_le.mpr this)
    obtain ⟨r0, hr0⟩ := Option.ne_none_iff_exists'.mp hne
    obtain ⟨i, hi, hget, hp, hmin⟩ := find?_some_first _ _ _ hr0
    refine ⟨i, hi, ?_, ?_, ?_⟩
    · rw [hget]; exact of_decide_eq_true hp
    · intro j hj hji
      have := hmin j hj hji
      simp at this
      exact this
    · rw [hget]
      simp only [addSource, hno, hr0]
  · intro hall
    have hsimnone : db.sources.find?
        (fun r => decide ((85 : ℚ)/100 ≤ T.similarity content r.content)) = none :=
      find?_eq_none_of_forall _ _ (fun r hr => decide_eq_false (not_le.mpr (hall r hr)))
    constructor
    · simp only [addSource, hno, hsimnone]
    · intro r hr
      have := hids r hr
      omega

/-- Witness for C3 at a concrete input: on the empty store the insert branch
fires and returns id 1 with `inserted = true`. -/
theorem C3_add_source_near_duplicate_witness :
    (addSource Tid DB.empty "u" "x").1 = (1, true) := by
  have h := (C3_add_source_near_duplicate Tid DB.empty "u" "x"
    (fun r hr => by simp [DB.empty] at hr)
    (fun r hr => by simp [DB.empty] at hr)).2
    (fun r hr => by simp [DB.empty] at hr)
  rw [h.1]
  rfl

/-- Claim C4 counterexample: on a store already holding the content `x`, the
first of two identical `add_source` calls already returns
`inserted = false` (the canonical id 1), and the source count after both
calls equals the count before them (1), not one greater — refuting the
claim, which asserts `inserted = true` on the first call and a count
increase of exactly one for every store state. -/
theorem C4_duplicate_insert_not_fresh :
    (addSource Tid ⟨[], [⟨1, "u", "x", "x"⟩], []⟩ "u2" "x").1 = (1, false) ∧
    countSources (addSource Tid (addSource Tid ⟨[], [⟨1, "u", "x", "x"⟩], []⟩ "u2" "x").2 "u3" "x").2 =
      countSources (⟨[], [⟨1, "u", "x", "x"⟩], []⟩ : DB) := by
  constructor
  · decide
  · decide

/-- Claim C4 (amended): provided the content has no exact-hash match and no
near-duplicate (similarity at least 0.85) already in the store, inserting it
twice yields the same Source id both times, `inserted = true` the first time
and `inserted = false` the second, and `count_sources` grows by exactly
one. -/
theorem C4_idempotent_dedup (T : TextOps) (db : DB) (u1 u2 c : String)
    (hhash : ∀ r ∈ db.sources, r.contentHash ≠ T.sha256 c)
    (hsim : ∀ r ∈ db.sources, T.similarity c r.content < (85 : ℚ)/100) :
    (addSource T db u1 c).1.2 = true ∧
    (addSource T (addSource T db u1 c).2 u2 c).1.2 = false ∧
    (addSource T (addSource T db u1 c).2 u2 c).1.1 = (addSource T db u1 c).1.1 ∧
    countSources (addSource T (addSource T db u1 c).2 u2 c).2 = countSources db + 1 := by
  have hno : db.sources.find? (fun r => r.contentHash == T.sha256 c) = none :=
    find?_eq_none_of_forall _ _ (fun r hr => by simpa using hhash r hr)
  have hsimnone : db.sources.find?
      (fun r => decide ((85 : ℚ)/100 ≤ T.similarity c r.content)) = none :=
    find?_eq_none_of_forall _ _ (fun r hr => decide_eq_false (not_le.mpr (hsim r hr)))
  have e1 : addSource T db u1 c =
      ((db.sources.length + 1, true),
        { db with sources := db.sources ++
          [({ id := db.sources.length + 1, url := u1, content := c,
              contentHash := T.sha256 c } : SourceRow)] }) := by
    simp only [addSource, hno, hsimnone]
  have e2 : List.find? (fun r => r.contentHash == T.sha256 c)
      (db.sources ++
        [({ id := db.sources.length + 1, url := u1, content := c,
            contentHash := T.sha256 c } : SourceRow)]) =
      some { id := db.sources.length + 1, url := u1, content := c,
             contentHash := T.sha256 c } := by
    rw [List.find?_append, hno]
    simp
  have e3 : addSource T (addSource T db u1 c).2 u2 c =
      ((db.sources.length + 1, false), (addSource T db u1 c).2) := by
    rw [e1]
    simp only [addSource, e2]
  refine ⟨?_, ?_, ?_, ?_⟩
  · rw [e1]
  · rw [e3]
  · rw [e3, e1]
  · rw [e3, e1]
    simp [countSources]

/-- Witness for C4 (amended) at a concrete input: fresh content on the empty
store. -/
theorem C4_idempotent_dedup_witness :
    (addSource Tid DB.empty "a" "x").1.2 = true ∧
    (addSource Tid (addSource Tid DB.empty "a" "x").2 "b" "x").1.2 = false ∧
    (addSource Tid (addSource Tid DB.empty "a" "x").2 "b" "x").1.1 =
      (addSource Tid DB.empty "a" "x").1.1 ∧
    countSources (addSource Tid (addSource Tid DB.empty "a" "x").2 "b" "x").2 =
      countSources DB.empty + 1 :=
  C4_idempotent_dedup Tid DB.empty "a" "b" "x"
    (fun r hr => by simp [DB.empty] at hr)
    (fun r hr => by simp [DB.empty] at hr)

/-- After a first observation with strength `s0` and `m` further upserts of
the same claim text with strength `s`, the claims table is the original rows
followed by one row for the claim with evidence count `m + 1` and confidence
`s + (s0 - s) / 2 ^ m`. -/
lemma observe_upsert_char (tbl : List KClaim) (p : String) (s0 s : ℚ)
    (hp : ∀ r ∈ tbl, r.claim ≠ p) :
    ∀ m, observeRepeat (upsertClaim tbl p s0) p s m =
      tbl ++ [⟨p, m + 1, s + (s0 - s) / 2 ^ m⟩] := by
  have hany0 : tbl.any (fun r => r.claim == p) = false := by
    simp only [List.any_eq_false]
    intro r hr
    simpa using hp r hr
  have hbase : upsertClaim tbl p s0 = tbl ++ [⟨p, 1, s0⟩] := by
    simp [upsertClaim, hany0]
  intro m
  induction m with
  | zero =>
    rw [observeRepeat, hbase]
    simp only [List.append_cancel_left_eq, List.cons.injEq, KClaim.mk.injEq]
    norm_num
  | succ m ih =>
    rw [observeRepeat, ih]
    have hany : (tbl ++ [(⟨p, m + 1, s + (s0 - s) / 2 ^ m⟩ : KClaim)]).any
        (fun r => r.claim == p) = true := by
      simp [List.any_append]
    have hmap : tbl.map (fun r =>
        if r.claim = p then
          { r with evidenceCount := r.evidenceCount + 1,
                   confidence := (r.confidence + s) / 2 }
        else r) = tbl := by
      have := List.map_congr_left (l := tbl)
        (f := fun r =>
          if r.claim = p then
            ({ r with evidenceCount := r.evidenceCount + 1,
                      confidence := (r.confidence + s) / 2 } : KClaim)
          else r)
        (g := id) (fun r hr => by simp [hp r hr])
      simpa using this
    have h2 : ((2 : ℚ)) ^ m ≠ 0 := pow_ne_zero _ two_ne_zero
    have hconf : ((s + (s0 - s) / 2 ^ m) + s) / 2 = s + (s0 - s) / 2 ^ (m + 1) := by
      field_simp
      ring
    simp [upsertClaim, hany, List.map_append, hmap, hconf]

/-- Claim C5: the first observation of a claim text stores evidence count 1
and confidence equal to the observed strength; each repeated observation
increments the count and halves the distance of the confidence to the new
strength, so after `n` observations (first strength `s0`, then `s`) the
claim row carries evidence count `n` and confidence
`s + (s0 - s) / 2 ^ (n - 1)`, which converges toward `s`. -/
theorem C5_claim_running_average (tbl : List KClaim) (p : String) (s0 s : ℚ) (n : Nat)
    (hp : ∀ r ∈ tbl, r.claim ≠ p) (hn : 1 ≤ n) :
    observeRepeat (upsertClaim tbl p s0) p s (n - 1) =
      tbl ++ [⟨p, n, s + (s0 - s) / 2 ^ (n - 1)⟩] := by
  have h := observe_upsert_char tbl p s0 s hp (n - 1)
  rwa [Nat.sub_add_cancel hn] at h

/-- Witness for C5 at a concrete input: strength 1 then strength 0 gives
evidence count 2 and confidence one half. -/
theorem C5_claim_running_average_witness :
    observeRepeat (upsertClaim [] "c" 1) "c" 0 1 = [⟨"c", 2, 1/2⟩] := by
  have h := C5_claim_running_average [] "c" 1 0 2 (fun r hr => by simp at hr) (by norm_num)
  norm_num at h
  rw [h]

/-- A failed continuation check means the time budget fired or the reasoning
service answered `stop`. -/
lemma shouldContinue_false_cases (maxHours : ℚ) (env : AgentEnv) (k : Nat)
    (h : shouldContinue maxHours env k = false) :
    maxHours < env.elapsedHours k ∨ env.decision k = "stop" := by
  rw [shouldContinue] at h
  by_cases hlt : maxHours < env.elapsedHours k
  · exact Or.inl hlt
  · right
    rw [if_neg hlt] at h
    simpa using h

/-- Claim C6: the outer research loop performs a further iteration exactly
while the elapsed time has not exceeded the budget and the continuation
decision is not `stop`; as soon as one of the two fires the loop ends and
the final report is produced.  The clock hypothesis states that wall-clock
time grows without bound across checks (each iteration sleeps), which is
what makes the time budget eventually fire. -/
theorem C6_loop_termination (maxHours : ℚ) (env : AgentEnv)
    (hclock : ∀ B : ℚ, ∃ n, B < env.elapsedHours n) :
    ∃ h : ∃ n, shouldContinue maxHours env n = false,
      (∀ k, k < (agentRun maxHours env h).1 → shouldContinue maxHours env k = true) ∧
      shouldContinue maxHours env (agentRun maxHours env h).1 = false ∧
      (maxHours < env.elapsedHours (agentRun maxHours env h).1 ∨
        env.decision (agentRun maxHours env h).1 = "stop") ∧
      (agentRun maxHours env h).2 = env.finalReport := by
  obtain ⟨n, hn⟩ := hclock maxHours
  have hf : shouldContinue maxHours env n = false := by
    simp [shouldContinue, hn]
  refine ⟨⟨n, hf⟩, ?_, ?_, ?_, rfl⟩
  · intro k hk
    have hmin := Nat.find_min (⟨n, hf⟩ : ∃ k, shouldContinue maxHours env k = false) hk
    simpa using hmin
  · exact Nat.find_spec (⟨n, hf⟩ : ∃ k, shouldContinue maxHours env k = false)
  · exact shouldContinue_false_cases maxHours env _
      (Nat.find_spec (⟨n, hf⟩ : ∃ k, shouldContinue maxHours env k = false))

/-- The loop environment used to witness C6: the clock reads `n` hours at the
n-th check and the reasoning service always answers `continue`. -/
def envC6 : AgentEnv := ⟨fun n => (n : ℚ), fun _ => "continue", "done"⟩

/-- Witness for C6 at a concrete input: a diverging clock and a budget of two
hours. -/
theorem C6_loop_termination_witness :
    ∃ h : ∃ n, shouldContinue 2 envC6 n = false,
      (∀ k, k < (agentRun 2 envC6 h).1 → shouldContinue 2 envC6 k = true) ∧
      shouldContinue 2 envC6 (agentRun 2 envC6 h).1 = false ∧
      (2 < envC6.elapsedHours (agentRun 2 envC6 h).1 ∨
        envC6.decision (agentRun 2 envC6 h).1 = "stop") ∧
      (agentRun 2 envC6 h).2 = envC6.finalReport :=
  C6_loop_termination 2 envC6 (fun B => exists_nat_gt B)

lemma all_set_of_all {α : Type} (p : α → Bool) (l : List α) (i : Nat) (x : α)
    (hl : l.all p = true) (hx : p x = true) : (l.set i x).all p = true := by
  rw [List.all_eq_true] at hl ⊢
  intro a ha
  rcases List.mem_or_eq_of_mem_set ha with h | h
  · exact hl a h
  · subst h; exact hx

lemma eq_singleton_of_mem_len_le_one {l : List Nat} (h : l.length ≤ 1) {a : Nat}
    (ha : a ∈ l) : l = [a] := by
  match l, h with
  | [], _ => simp at ha
  | [b], _ =>
    simp at ha
    simp [ha]

/-- A heap index is running exactly when it holds a job dict in state
`running`. -/
lemma isRunningAt_iff {s : Sched} {i : Nat} :
    isRunningAt s i = true ↔ ∃ j, s.jobs[i]? = some j ∧ j.state = "running" := by
  unfold isRunningAt
  cases heq : s.jobs[i]? with
  | none => simp
  | some j => simp [beq_iff_eq]

/-- The start and cancel guard holds exactly when `self.current` points at a
dict in state `running`. -/
lemma currentRunning_iff {s : Sched} :
    currentRunning s = true ↔ ∃ i, s.current = some i ∧ isRunningAt s i = true := by
  unfold currentRunning
  cases heq : s.current with
  | none => simp
  | some i => simp

/-- The single-flight invariant of cancel-free executions: the live worker
indices are exactly the running job indices, there is at most one live
worker, and `self.current` points at it. -/
structure SchedInv (s : Sched) : Prop where
  inv1 : ∀ i ∈ s.workers, isRunningAt s i = true
  inv2 : ∀ i, isRunningAt s i = true → i ∈ s.workers
  inv3 : s.workers.length ≤ 1
  inv4 : ∀ i ∈ s.workers, s.current = some i

lemma schedInv_init : SchedInv Sched.init := by
  refine ⟨?_, ?_, ?_, ?_⟩ <;> simp [Sched.init, isRunningAt]

/-- In a state satisfying the invariant, a false start guard means no worker
is live at all. -/
lemma workers_nil_of_not_running {s : Sched} (h : SchedInv s)
    (hr : currentRunning s = false) : s.workers = [] := by
  apply List.eq_nil_iff_forall_not_mem.mpr
  intro i hi
  have h4 := h.inv4 i hi
  have h1 := h.inv1 i hi
  have : currentRunning s = true := currentRunning_iff.mpr ⟨i, h4, h1⟩
  rw [this] at hr
  cases hr

lemma schedInv_step (s : Sched) (e : Ev) (hne : e ≠ Ev.cancel) (h : SchedInv s) :
    SchedInv (step s e) := by
  cases e with
  | start t =>
    by_cases hr : currentRunning s = true
    · have e1 : step s (.start t) = { s with clock := s.clock + 1 } := by
        simp [step, start, hr]
      rw [e1]
      exact ⟨h.inv1, h.inv2, h.inv3, h.inv4⟩
    · have hr' : currentRunning s = false := by
        revert hr
        cases currentRunning s <;> simp
      have hw : s.workers = [] := workers_nil_of_not_running h hr'
      have e1 : step s (.start t) =
          { jobs := s.jobs ++ [⟨s.jobs.length, "running", t, s.clock, 0, .empty⟩],
            current := some s.jobs.length, runCount := s.runCount + 1,
            workers := [s.jobs.length], clock := s.clock + 1 } := by
        simp [step, start, hr', hw]
      rw [e1]
      have hnew : (s.jobs ++ [(⟨s.jobs.length, "running", t, s.clock, 0, .empty⟩ : Job)])[s.jobs.length]? =
          some ⟨s.jobs.length, "running", t, s.clock, 0, .empty⟩ :=
        List.getElem?_concat_length _ _
      refine ⟨?_, ?_, ?_, ?_⟩
      · intro i hi
        simp at hi
        subst hi
        exact isRunningAt_iff.mpr ⟨_, hnew, rfl⟩
      · intro i hrun
        obtain ⟨j, hj, hst⟩ := isRunningAt_iff.mp hrun
        simp only at hj
        by_cases hik : i = s.jobs.length
        · simp [hik]
        · exfalso
          rcases Nat.lt_or_ge i s.jobs.length with hlt | hge
          · rw [List.getElem?_append, if_pos hlt] at hj
            have : isRunningAt s i = true := isRunningAt_iff.mpr ⟨j, hj, hst⟩
            have := h.inv2 i this
            rw [hw] at this
            simp at this
          · have hlen : (s.jobs ++ [(⟨s.jobs.length, "running", t, s.clock, 0, .empty⟩ : Job)]).length ≤ i := by
              simp
              omega
            rw [List.getElem?_eq_none hlen] at hj
            cases hj
      · simp
      · intro i hi
        simp at hi
        simp [hi]
  | cancel => exact absurd rfl hne
  | finish k r =>
    by_cases hc : s.workers.contains k = true
    · have hk : k ∈ s.workers := List.mem_of_elem_eq_true hc
      have hwk : s.workers = [k] := eq_singleton_of_mem_len_le_one h.inv3 hk
      cases hj : s.jobs[k]? with
      | none =>
        have e1 : step s (.finish k r) = { s with clock := s.clock + 1 } := by
          simp [step, finish, hc, hj]
        rw [e1]
        exact ⟨h.inv1, h.inv2, h.inv3, h.inv4⟩
      | some j =>
        have hklen : k < s.jobs.length := (List.getElem?_eq_some.mp hj).1
        obtain ⟨j2, e1, hj2⟩ :
            ∃ j2, step s (.finish k r) =
              { jobs := s.jobs.set k j2, current := some k, runCount := s.runCount,
                workers := [], clock := s.clock + 1 } ∧ j2.state ≠ "running" := by
          cases r with
          | ok a =>
            refine ⟨{ j with state := "complete", progress := 1, artifacts := .out a }, ?_, by simp⟩
            simp [step, finish, hc, hj, hwk]
          | error er =>
            refine ⟨{ j with state := "error", artifacts := .err (errMsg er) }, ?_, by simp⟩
            simp [step, finish, hc, hj, hwk]
        rw [e1]
        refine ⟨?_, ?_, ?_, ?_⟩
        · intro i hi
          simp at hi
        · intro i hrun
          exfalso
          obtain ⟨j', hj', hst⟩ := isRunningAt_iff.mp hrun
          simp only at hj'
          by_cases hik : i = k
          · subst hik
            rw [List.getElem?_set_eq hklen] at hj'
            injection hj' with hj''
            subst hj''
            exact hj2 hst
          · rw [List.getElem?_set_ne (fun hc2 => hik hc2.symm)] at hj'
            have : isRunningAt s i = true := isRunningAt_iff.mpr ⟨j', hj', hst⟩
            have := h.inv2 i this
            rw [hwk] at this
            simp at this
            exact hik this
        · simp
        · intro i hi
          simp at hi
    · have hcm : k ∉ s.workers := by simpa using hc
      have e1 : step s (.finish k r) = { s with clock := s.clock + 1 } := by
        simp [step, finish, hcm]
      rw [e1]
      exact ⟨h.inv1, h.inv2, h.inv3, h.inv4⟩

/-- The single-flight invariant holds in every state reachable without a
cancel call. -/
lemma schedInv_exec (evs : List Ev) (hnc : ∀ e ∈ evs, e ≠ Ev.cancel) :
    SchedInv (exec evs) := by
  suffices hgen : ∀ s, SchedInv s → SchedInv (evs.foldl step s) from
    hgen Sched.init schedInv_init
  induction evs with
  | nil => intro s hs; exact hs
  | cons e rest ih =>
    intro s hs
    have hne : e ≠ Ev.cancel := hnc e (List.mem_cons_self e rest)
    exact ih (fun x hx => hnc x (List.mem_cons_of_mem e hx)) (step s e)
      (schedInv_step s e hne hs)

/-- Every event either leaves the job heap unchanged, appends one fresh
`running` job dict with progress 0, or rewrites one existing dict in place,
preserving its id, never decreasing progress below the old value except by
keeping it, and never writing the state `cancelled`. -/
lemma step_jobs_shape (s : Sched) (e : Ev) :
    (step s e).jobs = s.jobs ∨
    (∃ jnew : Job, (step s e).jobs = s.jobs ++ [jnew] ∧ jnew.id = s.jobs.length ∧
      jnew.progress = 0 ∧ jnew.state = "running") ∨
    (∃ i jold jnew, s.jobs[i]? = some jold ∧ (step s e).jobs = s.jobs.set i jnew ∧
      jnew.id = jold.id ∧
      (jnew.progress = jold.progress ∨ (jnew.progress = 1 ∧ jnew.state = "complete")) ∧
      jnew.state ≠ "cancelled") := by
  cases e with
  | start t =>
    by_cases hr : currentRunning s = true
    · left
      simp [step, start, hr]
    · have hr' : currentRunning s = false := by
        revert hr
        cases currentRunning s <;> simp
      right; left
      exact ⟨⟨s.jobs.length, "running", t, s.clock, 0, .empty⟩,
        by simp [step, start, hr'], rfl, rfl, rfl⟩
  | cancel =>
    rcases hcur : s.current with _ | i
    · left
      simp [step, cancel, hcur]
    · rcases hj : s.jobs[i]? with _ | j
      · left
        simp [step, cancel, hcur, hj]
      · by_cases hst : j.state = "running"
        · right; right
          exact ⟨i, j, { j with state := "error", artifacts := .err "cancelled" }, hj,
            by simp [step, cancel, hcur, hj, hst], rfl, Or.inl rfl, by simp⟩
        · left
          simp [step, cancel, hcur, hj, hst]
  | finish k r =>
    by_cases hc : k ∈ s.workers
    · rcases hj : s.jobs[k]? with _ | j
      · left
        simp [step, finish, hc, hj]
      · cases r with
        | ok a =>
          right; right
          exact ⟨k, j, { j with state := "complete", progress := 1, artifacts := .out a }, hj,
            by simp [step, finish, hc, hj], rfl, Or.inr ⟨rfl, rfl⟩, by simp⟩
        | error er =>
          right; right
          exact ⟨k, j, { j with state := "error", artifacts := .err (errMsg er) }, hj,
            by simp [step, finish, hc, hj], rfl, Or.inl rfl, by simp⟩
    · left
      simp [step, finish, hc]

/-- The rowid discipline of the job heap: every dict stores its own heap
index as its id. -/
@[reducible] def jobsWF (s : Sched) : Prop :=
  ∀ (k : Nat) (j : Job), s.jobs[k]? = some j → j.id = k

lemma jobsWF_step (s : Sched) (e : Ev) (h : jobsWF s) : jobsWF (step s e) := by
  rcases step_jobs_shape s e with hs | ⟨jnew, hs, hid, _, _⟩ | ⟨i, jold, jnew, hold, hs, hid, _, _⟩
  · intro k j hk
    rw [hs] at hk
    exact h k j hk
  · intro k j hk
    rw [hs] at hk
    rcases Nat.lt_or_ge k s.jobs.length with hlt | hge
    · rw [List.getElem?_append, if_pos hlt] at hk
      exact h k j hk
    · by_cases hkl : k = s.jobs.length
      · subst hkl
        rw [List.getElem?_concat_length] at hk
        injection hk with hk
        subst hk
        exact hid
      · rw [List.getElem?_eq_none (by simp; omega)] at hk
        cases hk
  · intro k j hk
    rw [hs] at hk
    by_cases hik : i = k
    · subst hik
      have hilen : i < s.jobs.length := (List.getElem?_eq_some.mp hold).1
      rw [List.getElem?_set_eq hilen] at hk
      injection hk with hk
      subst hk
      rw [hid]
      exact h i jold hold
    · rw [List.getElem?_set_ne hik] at hk
      exact h k j hk

lemma jobsWF_exec (evs : List Ev) : jobsWF (exec evs) := by
  suffices hgen : ∀ s, jobsWF s → jobsWF (evs.foldl step s) from
    hgen Sched.init (fun k j hk => by simp [Sched.init] at hk)
  induction evs with
  | nil => intro s hs; exact hs
  | cons e rest ih => intro s hs; exact ih (step s e) (jobsWF_step s e hs)

lemma notCancelled_step (s : Sched) (e : Ev)
    (h : (s.jobs.all (fun j => j.state != "cancelled")) = true) :
    ((step s e).jobs.all (fun j => j.state != "cancelled")) = true := by
  rcases step_jobs_shape s e with hs | ⟨jnew, hs, _, _, hstate⟩ | ⟨i, jold, jnew, _, hs, _, _, hstate⟩
  · rw [hs]; exact h
  · rw [hs, List.all_append, h]
    simp [hstate]
  · rw [hs]
    exact all_set_of_all _ _ _ _ h (by simp [hstate])

/-- No reachable scheduler state holds any job in state `cancelled`: the
code never writes that state. -/
lemma notCancelled_exec (evs : List Ev) :
    ((exec evs).jobs.all (fun j => j.state != "cancelled")) = true := by
  suffices hgen : ∀ s, (s.jobs.all (fun j => j.state != "cancelled")) = true →
      ((evs.foldl step s).jobs.all (fun j => j.state != "cancelled")) = true from
    hgen Sched.init (by simp [Sched.init])
  induction evs with
  | nil => intro s hs; exact hs
  | cons e rest ih => intro s hs; exact ih (step s e) (notCancelled_step s e hs)

/-- Job progress never exceeds 1 in any reachable state. -/
@[reducible] def ProgOk (s : Sched) : Prop :=
  ∀ (k : Nat) (j : Job), s.jobs[k]? = some j → j.progress ≤ 1

lemma progOk_step (s : Sched) (e : Ev) (h : ProgOk s) : ProgOk (step s e) := by
  rcases step_jobs_shape s e with hs | ⟨jnew, hs, _, hprog, _⟩ |
    ⟨i, jold, jnew, hold, hs, _, hprog, _⟩
  · intro k j hk
    rw [hs] at hk
    exact h k j hk
  · intro k j hk
    rw [hs] at hk
    rcases Nat.lt_or_ge k s.jobs.length with hlt | hge
    · rw [List.getElem?_append, if_pos hlt] at hk
      exact h k j hk
    · by_cases hkl : k = s.jobs.length
      · subst hkl
        rw [List.getElem?_concat_length] at hk
        injection hk with hk
        subst hk
        rw [hprog]
        norm_num
      · rw [List.getElem?_eq_none (by simp; omega)] at hk
        cases hk
  · intro k j hk
    rw [hs] at hk
    by_cases hik : i = k
    · subst hik
      have hilen : i < s.jobs.length := (List.getElem?_eq_some.mp hold).1
      rw [List.getElem?_set_eq hilen] at hk
      injection hk with hk
      subst hk
      rcases hprog with hp | ⟨hp, _⟩
      · rw [hp]
        exact h i jold hold
      · rw [hp]
    · rw [List.getElem?_set_ne hik] at hk
      exact h k j hk

lemma progOk_exec (evs : List Ev) : ProgOk (exec evs) := by
  suffices hgen : ∀ s, ProgOk s → ProgOk (evs.foldl step s) from
    hgen Sched.init (fun k j hk => by simp [Sched.init] at hk)
  induction evs with
  | nil => intro s hs; exact hs
  | cons e rest ih => intro s hs; exact ih (step s e) (progOk_step s e hs)

/-- One event never decreases the progress of a job that exists before and
after it, in any reachable state. -/
lemma progress_mono_step (evs : List Ev) (e : Ev) (i : Nat) (j j' : Job)
    (hj : (exec evs).jobs[i]? = some j)
    (hj' : (step (exec evs) e).jobs[i]? = some j') :
    j.progress ≤ j'.progress := by
  have hP : ProgOk (exec evs) := progOk_exec evs
  rcases step_jobs_shape (exec evs) e with hs | ⟨jnew, hs, _, _, _⟩ |
    ⟨i0, jold, jnew, hold, hs, _, hprog, _⟩
  · rw [hs, hj] at hj'
    injection hj' with hj'
    rw [hj']
  · rw [hs] at hj'
    have hlt : i < (exec evs).jobs.length := (List.getElem?_eq_some.mp hj).1
    rw [List.getElem?_append, if_pos hlt, hj] at hj'
    injection hj' with hj'
    rw [hj']
  · rw [hs] at hj'
    by_cases hik : i0 = i
    · subst hik
      have hilen : i0 < (exec evs).jobs.length := (List.getElem?_eq_some.mp hold).1
      rw [List.getElem?_set_eq hilen] at hj'
      injection hj' with hj'
      have hje : jold = j := by
        have h2 := hold.symm.trans hj
        injection h2
      rcases hprog with hp | ⟨hp, _⟩
      · rw [← hj', hp, ← hje]
      · rw [← hj', hp]
        exact hP i0 j hj
    · rw [List.getElem?_set_ne hik, hj] at hj'
      injection hj' with hj'
      rw [hj']

/-- The progress fractions emitted by the stage loop form a non-decreasing
chain, bounded below by the entry fraction and above by the exit fraction. -/
lemma stageLoop_snd_bounds (c : Nat → Bool) (total : Nat) (ht : (0 : ℚ) < (total : ℚ)) :
    ∀ (rest : List String) (i : Nat),
      List.Chain' (· ≤ ·) ((stageLoopFrom c total i rest).1.map Prod.snd) ∧
      ∀ q ∈ (stageLoopFrom c total i rest).1.map Prod.snd,
        (i : ℚ)/(total : ℚ) ≤ q ∧ q ≤ (((i + rest.length : Nat) : ℚ))/(total : ℚ) := by
  intro rest
  induction rest with
  | nil => intro i; simp [stageLoopFrom]
  | cons st tail ih =>
    intro i
    by_cases hc : c i = true
    · simp [stageLoopFrom, hc]
    · have hc' : c i = false := by
        revert hc
        cases c i <;> simp
      have e1 : stageLoopFrom c total i (st :: tail) =
          ((st, (i : ℚ)/(total : ℚ)) :: (stageLoopFrom c total (i + 1) tail).1,
            (stageLoopFrom c total (i + 1) tail).2) := by
        rw [stageLoopFrom, hc']
        simp
      rw [e1]
      obtain ⟨ihc, ihb⟩ := ih (i + 1)
      have hstep : (i : ℚ)/(total : ℚ) ≤ ((i + 1 : Nat) : ℚ)/(total : ℚ) := by
        gcongr
        push_cast
        linarith
      constructor
      · rw [List.map_cons, List.chain'_cons']
        refine ⟨?_, ihc⟩
        intro b hb
        have hbmem : b ∈ (stageLoopFrom c total (i + 1) tail).1.map Prod.snd :=
          List.mem_of_mem_head? hb
        exact le_trans hstep (ihb b hbmem).1
      · simp only [List.map_cons]
        intro q hq
        rcases List.mem_cons.mp hq with hq | hq
        · subst hq
          refine ⟨le_refl _, ?_⟩
          gcongr
          push_cast
          linarith
        · obtain ⟨hq1, hq2⟩ := ihb q hq
          refine ⟨le_trans hstep hq1, ?_⟩
          have hlen : i + 1 + tail.length = i + (st :: tail).length := by
            simp
            omega
          rw [← hlen]
          exact hq2

/-- One `run_research` call emits either the stage-loop events alone (on
cancellation or any exception) or the stage-loop events followed by the
final event `("generating_report", 1)` (on success). -/
lemma runResearch_events_cases (T : TextOps) (env : PipeEnv) (db : DB)
    (topic : String) (hrs : ℚ) (focus : String) :
    (runResearch T env db topic hrs focus).events =
      (stageLoopFrom env.cancelAt stages.length 0 stages).1 ∨
    (runResearch T env db topic hrs focus).events =
      (stageLoopFrom env.cancelAt stages.length 0 stages).1 ++ [("generating_report", 1)] := by
  unfold runResearch
  by_cases hsl : (stageLoopFrom env.cancelAt stages.length 0 stages).2 = true
  · simp [hsl]
  · rw [if_neg hsl]
    rcases hd : env.deepScrape topic with e | urls
    · simp
    · rcases hsc : scrapeLoop T env (startSession db topic focus).1
        (startSession db topic focus).2 urls with p | ⟨findings, db2⟩
      · simp [hsc]
      · rcases hsy : env.synthesizeOut (findings.map Prod.fst) with e2 | rep
        · simp [hsc, hsy]
        · rcases hw1 : env.writeOutcome reportPath (FileData.text rep) with e3 | u1
          · simp [hsc, hsy, hw1]
          · rcases hw2 : env.writeOutcome citationsPath
              (FileData.citations (urls.map (fun u => (u, env.snapshotUrl u)))) with e4 | u2
            · simp [hsc, hsy, hw1, hw2]
            · simp [hsc, hsy, hw1, hw2]

/-- The pipeline writes at most the report and citations files, in that
order: nothing on cancellation or on a failure before the report write, only
the report when the failure hits the citations phase, and both exactly on
success. -/
lemma runResearch_files_cases (T : TextOps) (env : PipeEnv) (db : DB)
    (topic : String) (hrs : ℚ) (focus : String) :
    (runResearch T env db topic hrs focus).files = [] ∨
    (∃ c, (runResearch T env db topic hrs focus).files = [(reportPath, FileData.text c)] ∧
      ∃ e, (runResearch T env db topic hrs focus).result = Except.error (RunErr.failure e)) ∨
    (∃ c cit a, (runResearch T env db topic hrs focus).files =
        [(reportPath, FileData.text c), (citationsPath, cit)] ∧
      (runResearch T env db topic hrs focus).result = Except.ok a) := by
  unfold runResearch
  by_cases hsl : (stageLoopFrom env.cancelAt stages.length 0 stages).2 = true
  · simp [hsl]
  · rw [if_neg hsl]
    rcases hd : env.deepScrape topic with e | urls
    · simp
    · rcases hsc : scrapeLoop T env (startSession db topic focus).1
        (startSession db topic focus).2 urls with p | ⟨findings, db2⟩
      · simp [hsc]
      · rcases hsy : env.synthesizeOut (findings.map Prod.fst) with e2 | rep
        · simp [hsc, hsy]
        · rcases hw1 : env.writeOutcome reportPath (FileData.text rep) with e3 | u1
          · simp [hsc, hsy, hw1]
          · rcases hw2 : env.writeOutcome citationsPath
              (FileData.citations (urls.map (fun u => (u, env.snapshotUrl u)))) with e4 | u2
            · right; left
              simp [hsc, hsy, hw1, hw2]
            · right; right
              simp [hsc, hsy, hw1, hw2]

/-- The full progress-event trace of one `run_research` call is monotone. -/
lemma runResearch_events_chain (T : TextOps) (env : PipeEnv) (db : DB)
    (topic : String) (hrs : ℚ) (focus : String) :
    List.Chain' (· ≤ ·) ((runResearch T env db topic hrs focus).events.map Prod.snd) := by
  have ht : (0 : ℚ) < (stages.length : ℚ) := by norm_num [stages]
  have hb := stageLoop_snd_bounds env.cancelAt stages.length ht stages 0
  rcases runResearch_events_cases T env db topic hrs focus with he | he
  · rw [he]
    exact hb.1
  · rw [he, List.map_append, List.chain'_append]
    refine ⟨hb.1, by simp, ?_⟩
    intro x hx y hy
    simp at hy
    subst hy
    have hxm : x ∈ (stageLoopFrom env.cancelAt stages.length 0 stages).1.map Prod.snd :=
      List.mem_of_mem_getLast? hx
    have hup := (hb.2 x hxm).2
    have h1 : (((0 + stages.length : Nat) : ℚ)) / ((stages.length : Nat) : ℚ) = 1 := by
      rw [Nat.zero_add]
      exact div_self (ne_of_gt ht)
    rw [h1] at hup
    exact hup

/-- Claim C1 (code bug): at the failing input — a state with one running job
— `cancel` returns true but marks the job dict state `error` with artifacts
`error: cancelled`; no reachable scheduler state ever holds a job in the
claimed terminal state `cancelled`; and `cancel` returns true exactly when
the current job is running, leaving the state untouched when it returns
false. -/
theorem C1_cancel_marks_error_not_cancelled :
    ((cancel (exec [Ev.start "t"])).1 = true ∧
      ((cancel (exec [Ev.start "t"])).2.jobs[0]?.map (fun j => (j.state, j.artifacts))) =
        some ("error", ArtifactsD.err "cancelled")) ∧
    (∀ evs : List Ev, ((exec evs).jobs.all (fun j => j.state != "cancelled")) = true) ∧
    (∀ s : Sched, (cancel s).1 = currentRunning s ∧
      (cancel s).2 = if (cancel s).1 = true then (cancel s).2 else s) := by
  refine ⟨⟨by decide, by decide⟩, notCancelled_exec, ?_⟩
  intro s
  rcases hcur : s.current with _ | i
  · simp [cancel, currentRunning, hcur]
  · rcases hj : s.jobs[i]? with _ | j
    · simp [cancel, currentRunning, isRunningAt, hcur, hj]
    · by_cases hst : j.state = "running"
      · simp [cancel, currentRunning, isRunningAt, hcur, hj, hst]
      · simp [cancel, currentRunning, isRunningAt, hcur, hj, hst]

/-- The interleaving that breaks the single-flight conclusion of claim C2: a
job is started and cancelled, a second job starts, the first worker then
finishes and repoints `self.current` at its own (terminal) dict, whereupon a
third `start` call sees a non-running current job and launches a third job
while the second still runs. -/
def c2trace : List Ev :=
  [.start "a", .cancel, .start "b", .finish 0 (.ok ⟨1, "r", "c"⟩), .start "c"]

/-- Claim C2 counterexample: in the reachable state after `c2trace`, the job
dicts at indices 1 and 2 are both in state `running` and both their worker
threads are live — two jobs run at once, refuting the claimed invariant. -/
theorem C2_two_running_jobs_reachable :
    isRunningAt (exec c2trace) 1 = true ∧ isRunningAt (exec c2trace) 2 = true ∧
    (exec c2trace).workers = [1, 2] := by
  refine ⟨by decide, by decide, by decide⟩

/-- Claim C2 (amended): `start` returns the running current job id unchanged
and touches nothing when the current job is running, and otherwise allocates
a fresh job dict (fresh id, state `running`, progress 0) and launches its
worker; the at-most-one-running-job invariant holds on every execution that
never calls `cancel` (a cancel can strand a live worker, after which the
invariant can break). -/
theorem C2_start_single_flight :
    (∀ (s : Sched) (t : String), currentRunning s = true → start s t = (currentId s, s)) ∧
    (∀ (s : Sched) (t : String), currentRunning s = false →
      start s t = (s.jobs.length,
        { jobs := s.jobs ++ [⟨s.jobs.length, "running", t, s.clock, 0, ArtifactsD.empty⟩],
          current := some s.jobs.length, runCount := s.runCount + 1,
          workers := s.workers ++ [s.jobs.length], clock := s.clock })) ∧
    (∀ s : Sched, jobsWF s → ∀ j ∈ s.jobs, j.id ≠ s.jobs.length) ∧
    (∀ evs : List Ev, jobsWF (exec evs)) ∧
    (∀ (evs : List Ev) (i i' : Nat), (∀ e ∈ evs, e ≠ Ev.cancel) →
      isRunningAt (exec evs) i = true → isRunningAt (exec evs) i' = true → i = i') := by
  refine ⟨?_, ?_, ?_, jobsWF_exec, ?_⟩
  · intro s t h
    simp [start, h]
  · intro s t h
    simp [start, h]
  · intro s hwf j hj
    obtain ⟨k, hk, hkj⟩ := List.mem_iff_getElem.mp hj
    have := hwf k j (List.getElem?_eq_some.mpr ⟨hk, hkj⟩)
    omega
  · intro evs i i' hnc h1 h2
    have hinv := schedInv_exec evs hnc
    have m1 := hinv.inv2 i h1
    have m2 := hinv.inv2 i' h2
    have hwk := eq_singleton_of_mem_len_le_one hinv.inv3 m1
    rw [hwk] at m2
    simp at m2
    rw [m2]

/-- Witness for C2 (amended) at a concrete input: a second `start` while the
first job runs is a no-op returning the current id. -/
theorem C2_start_single_flight_witness :
    start (exec [Ev.start "t"]) "u" = (currentId (exec [Ev.start "t"]), exec [Ev.start "t"]) :=
  C2_start_single_flight.1 (exec [Ev.start "t"]) "u" (by decide)

/-- Claim C7: across any reachable scheduler transition, the progress of a
job never decreases; and the progress fractions emitted by one pipeline run
(stage fractions in stage order, then 1.0 on completion) form a
non-decreasing sequence.  Successive status polls therefore never observe a
progress drop. -/
theorem C7_progress_monotone :
    (∀ (evs : List Ev) (e : Ev) (i : Nat) (j j' : Job),
      (exec evs).jobs[i]? = some j → (step (exec evs) e).jobs[i]? = some j' →
      j.progress ≤ j'.progress) ∧
    (∀ (T : TextOps) (env : PipeEnv) (db : DB) (topic : String) (hrs : ℚ) (focus : String),
      List.Chain' (· ≤ ·) ((runResearch T env db topic hrs focus).events.map Prod.snd)) :=
  ⟨progress_mono_step, runResearch_events_chain⟩

/-- Witness for C7 at a concrete input: a job completing moves its progress
from 0 to 1. -/
theorem C7_progress_monotone_witness :
    (exec [Ev.start "t"]).jobs[0]? = some ⟨0, "running", "t", 0, 0, ArtifactsD.empty⟩ ∧
    (step (exec [Ev.start "t"]) (Ev.finish 0 (Except.ok ⟨1, "r", "c"⟩))).jobs[0]? =
      some ⟨0, "complete", "t", 0, 1, ArtifactsD.out ⟨1, "r", "c"⟩⟩ ∧
    (⟨0, "running", "t", 0, 0, ArtifactsD.empty⟩ : Job).progress ≤
      (⟨0, "complete", "t", 0, 1, ArtifactsD.out ⟨1, "r", "c"⟩⟩ : Job).progress :=
  ⟨by rfl, by rfl,
    C7_progress_monotone.1 [Ev.start "t"] (Ev.finish 0 (Except.ok ⟨1, "r", "c"⟩)) 0 _ _
      (by rfl) (by rfl)⟩

/-- The pipeline environment refuting the no-report-on-error part of claim
C8: every collaborator call succeeds except the citations file write, which
raises an OSError after the report file has already been written. -/
def envC8 : PipeEnv :=
  { cancelAt := fun _ => false,
    deepScrape := fun _ => .ok ["http://example.com"],
    extractContent := fun u => .ok ("Example content from " ++ u),
    synthesizeOut := fun _ => .ok "report text",
    snapshotUrl := fun u => "https://web.archive.org/web/0/" ++ u,
    writeOutcome := fun p _ => if p == citationsPath then .error "No space left on device" else .ok () }

/-- Claim C8 counterexample: when the citations write raises, the run
terminates as an error — yet the report file has been written, refuting "no
report file is written for that run". -/
theorem C8_report_file_on_error :
    (runResearch Tid envC8 DB.empty "Test" 1 "").result =
      Except.error (RunErr.failure "No space left on device") ∧
    (runResearch Tid envC8 DB.empty "Test" 1 "").files =
      [(reportPath, FileData.text "report text")] :=
  ⟨by decide, by decide⟩

/-- Claim C8 (amended): any pipeline exception is caught at the worker
boundary — the job dict is marked `error` with the exception detail in
artifacts and the scheduler keeps running; on such an error no citations
file exists and at most the report file may have been written (exactly when
the exception arose in the citations phase, after the report write); both
files exist only on success. -/
theorem C8_error_boundary :
    (∀ (s : Sched) (i : Nat) (er : RunErr) (j : Job),
      s.workers.contains i = true → s.jobs[i]? = some j →
      (finish s i (.error er)).jobs[i]? =
        some { j with state := "error", artifacts := ArtifactsD.err (errMsg er) } ∧
      (finish s i (.error er)).current = some i) ∧
    (∀ (T : TextOps) (env : PipeEnv) (db : DB) (topic : String) (hrs : ℚ) (focus : String),
      (runResearch T env db topic hrs focus).files = [] ∨
      (∃ c, (runResearch T env db topic hrs focus).files = [(reportPath, FileData.text c)] ∧
        ∃ e, (runResearch T env db topic hrs focus).result = Except.error (RunErr.failure e)) ∨
      (∃ c cit a, (runResearch T env db topic hrs focus).files =
          [(reportPath, FileData.text c), (citationsPath, cit)] ∧
        (runResearch T env db topic hrs focus).result = Except.ok a)) := by
  refine ⟨?_, runResearch_files_cases⟩
  intro s i er j hc hj
  have hm : i ∈ s.workers := List.mem_of_elem_eq_true hc
  have hilen : i < s.jobs.length := (List.getElem?_eq_some.mp hj).1
  constructor
  · simp [finish, hm, hj, List.getElem?_set_eq hilen]
  · simp [finish, hm, hj]

/-- Witness for C8 (amended) at a concrete input: a worker failing with an
exception marks its job `error` with the message in artifacts. -/
theorem C8_error_boundary_witness :
    (finish (exec [Ev.start "t"]) 0 (Except.error (RunErr.failure "boom"))).jobs[0]? =
      some ⟨0, "error", "t", 0, 0, ArtifactsD.err "boom"⟩ ∧
    (finish (exec [Ev.start "t"]) 0 (Except.error (RunErr.failure "boom"))).current = some 0 :=
  C8_error_boundary.1 (exec [Ev.start "t"]) 0 (RunErr.failure "boom")
    ⟨0, "running", "t", 0, 0, ArtifactsD.empty⟩ (by rfl) (by rfl)

/-- Claim C9 counterexample: with job 0 current, a status query for the
unrelated id 99 still returns the snapshot of job 0 — the result does not
depend on which job the id matches, and the returned job does not match the
requested id. -/
theorem C9_status_ignores_argument :
    statusId (status (exec [Ev.start "t"]) (some 99)) = some 0 ∧
    status (exec [Ev.start "t"]) (some 99) = status (exec [Ev.start "t"]) none :=
  ⟨by decide, rfl⟩

/-- Claim C9 (amended): `status` never reads its `job_id` argument — for any
two arguments the snapshots coincide; it returns the idle sentinel exactly
when no current job exists, and otherwise a well-formed point-in-time copy
of whatever job `self.current` points at, id match or not. -/
theorem C9_status_snapshot :
    (∀ (s : Sched) (id1 id2 : Option Nat), status s id1 = status s id2) ∧
    (∀ (s : Sched) (id1 : Option Nat), s.current = none → status s id1 = StatusView.idle) ∧
    (∀ (s : Sched) (id1 : Option Nat) (i : Nat) (j : Job),
      s.current = some i → s.jobs[i]? = some j → status s id1 = StatusView.snap j) := by
  refine ⟨fun s id1 id2 => rfl, ?_, ?_⟩
  · intro s id1 h
    simp [status, h]
  · intro s id1 i j h1 h2
    simp [status, h1, h2]

/-- Witness for C9 (amended) at a concrete input: a status query with a
non-matching id returns the snapshot of the current job. -/
theorem C9_status_snapshot_witness :
    status (exec [Ev.start "t"]) (some 5) =
      StatusView.snap ⟨0, "running", "t", 0, 0, ArtifactsD.empty⟩ :=
  C9_status_snapshot.2.2 (exec [Ev.start "t"]) (some 5) 0
    ⟨0, "running", "t", 0, 0, ArtifactsD.empty⟩ (by rfl) (by rfl)

/-- Claim C10: the `hours` time-budget argument of `run_research` is never
read — two runs differing only in it produce identical results, database
states, files and progress events. -/
theorem C10_hours_not_read :
    ∀ (T : TextOps) (env : PipeEnv) (db : DB) (topic focus : String) (h1 h2 : ℚ),
      runResearch T env db topic h1 focus = runResearch T env db topic h2 focus :=
  fun _ _ _ _ _ _ _ => rfl

end Research
